import Mathlib

/-!
Verification of the osm-data-anomaly-detection tools against their
natural-language specification.  The definitions below are a shallow
embedding of the C++ sources:

* `odad-find-colocated-nodes.cpp` — bucketed external-memory
  deduplication of node locations (`extract_locations`,
  `find_locations`) and the second pass copying colocated nodes and the
  ways/relations referencing them;
* `odad-find-orphans.cpp` — two-pass reference-presence index and the
  orphan check;
* `odad-find-multipolygon-problems.cpp` — tag comparison rules for
  multipolygon relations (`compare_tags`, `conflicting_tags`,
  `complete_relation`);
* `odad-find-relation-problems.cpp` — per-relation structural checks
  (`find_duplicate_ways`, `multipolygon_relation`).

Machine integers are modelled as `Int`/`Nat`; OSM object ids are signed
and canonicalized through `Int.natAbs` (the code's `positive_id`).
-/

set_option maxRecDepth 100000

/-! ## Common data model -/

/-- The three OSM entity kinds (`osmium::item_type`, restricted to the
values the tools use). -/
inductive ItemType where
  | node
  | way
  | rel
  deriving DecidableEq, Repr

/-- A single OSM tag: key/value pair of strings (`osmium::Tag`). -/
structure Tag where
  key : String
  value : String
  deriving DecidableEq, Repr

/-- A node location: pair of fixed-precision integer coordinates
(`osmium::Location`, which stores x and y as 32-bit integers). -/
structure Location where
  x : Int
  y : Int
  deriving DecidableEq, Repr

/-- A relation member: kind, signed reference id and role string
(`osmium::RelationMember`). -/
structure Member where
  type : ItemType
  ref : Int
  role : String
  deriving DecidableEq, Repr

/-- An OSM node (`osmium::Node`): id, timestamp, tags, location. -/
structure Node where
  id : Int
  timestamp : Nat
  tags : List Tag
  location : Location
  deriving DecidableEq, Repr

/-- An OSM way (`osmium::Way`): id, timestamp, tags and the ordered
list of referenced node ids. -/
structure Way where
  id : Int
  timestamp : Nat
  tags : List Tag
  nodeRefs : List Int
  deriving DecidableEq, Repr

/-- An OSM relation (`osmium::Relation`): id, timestamp, tags and the
ordered member list. -/
structure OsmRelation where
  id : Int
  timestamp : Nat
  tags : List Tag
  members : List Member
  deriving DecidableEq, Repr

/-- `positive_id()` / `positive_ref()`: canonicalize a signed id to an
unsigned key via absolute value. -/
def positiveId (id : Int) : Nat := id.natAbs

/-- The time filter: `timestamp < options.before_time`.  `none` models
the default `osmium::end_of_time()` sentinel, which lets every object
pass. -/
def beforeOk (cutoff : Option Nat) (timestamp : Nat) : Bool :=
  match cutoff with
  | none => true
  | some t => timestamp < t

/-! ## BucketedDedupIndex (odad-find-colocated-nodes.cpp)

`extract_locations` distributes the locations of all nodes passing the
time filter over 256 bucket files, keyed by
`static_cast<uint32_t>(location.x()) & (num_buckets - 1)`.
`find_locations` sorts each bucket, collects one representative of
every adjacent-equal run (`std::adjacent_find`, advancing past the
pair), and finally sorts and `std::unique`s the accumulated result. -/

/-- Lexicographic order on locations (`osmium::Location::operator<`
compares x, then y). -/
def locLe (a b : Location) : Prop :=
  a.x < b.x ∨ (a.x = b.x ∧ a.y ≤ b.y)

/-- Strict lexicographic order on locations. -/
def locLt (a b : Location) : Prop :=
  a.x < b.x ∨ (a.x = b.x ∧ a.y < b.y)

instance : DecidableRel locLe := fun a b =>
  inferInstanceAs (Decidable (a.x < b.x ∨ (a.x = b.x ∧ a.y ≤ b.y)))

instance : DecidableRel locLt := fun a b =>
  inferInstanceAs (Decidable (a.x < b.x ∨ (a.x = b.x ∧ a.y < b.y)))

instance : IsTotal Location locLe where
  total a b := by
    unfold locLe
    rcases lt_trichotomy a.x b.x with h | h | h
    · exact Or.inl (Or.inl h)
    · rcases le_total a.y b.y with h' | h'
      · exact Or.inl (Or.inr ⟨h, h'⟩)
      · exact Or.inr (Or.inr ⟨h.symm, h'⟩)
    · exact Or.inr (Or.inl h)

instance : IsTrans Location locLe where
  trans a b c hab hbc := by
    unfold locLe at *
    rcases hab with h1 | ⟨h1, h1'⟩ <;> rcases hbc with h2 | ⟨h2, h2'⟩
    · exact Or.inl (h1.trans h2)
    · exact Or.inl (h2 ▸ h1)
    · exact Or.inl (h1 ▸ h2)
    · exact Or.inr ⟨h1.trans h2, h1'.trans h2'⟩

instance : IsAntisymm Location locLe where
  antisymm a b hab hba := by
    unfold locLe at *
    rcases hab with h1 | ⟨h1, h1'⟩ <;> rcases hba with h2 | ⟨h2, h2'⟩
    · exact absurd (h1.trans h2) (lt_irrefl _)
    · exact absurd h1 (h2 ▸ lt_irrefl _)
    · exact absurd h2 (h1 ▸ lt_irrefl _)
    · have h3 := le_antisymm h1' h2'
      cases a; cases b
      simp_all

instance : IsAntisymm Location locLt where
  antisymm a b hab hba := by
    unfold locLt at *
    rcases hab with h1 | ⟨h1, h1'⟩ <;> rcases hba with h2 | ⟨h2, h2'⟩
    · exact absurd (h1.trans h2) (lt_irrefl _)
    · exact absurd h1 (h2 ▸ lt_irrefl _)
    · exact absurd h2 (h1 ▸ lt_irrefl _)
    · exact absurd (h1'.trans h2') (lt_irrefl _)

theorem locLt_of_locLe_ne {a b : Location} (h : locLe a b) (hne : a ≠ b) :
    locLt a b := by
  unfold locLe at h
  unfold locLt
  rcases h with h | ⟨h, h'⟩
  · exact Or.inl h
  · refine Or.inr ⟨h, lt_of_le_of_ne h' fun hy => hne ?_⟩
    cases a; cases b; simp_all

/-- Number of on-disk buckets (`num_buckets = 1 << 8`). -/
def numBuckets : Nat := 256

/-- Bucket selection:
`static_cast<uint32_t>(node.location().x()) & (num_buckets - 1)`.
Masking the low 8 bits of the two's-complement representation equals
the mathematical residue mod 256 (256 divides 2^32). -/
def bucketOf (loc : Location) : Nat :=
  (loc.x % (256 : Int)).toNat

/-- `extract_locations`: the sequence of locations that end up in
bucket `i` — locations of nodes passing the time filter whose x hashes
to `i`, in stream order (buffer flushes append and so preserve
order). -/
def extractLocations (cutoff : Option Nat) (nodes : List Node) (i : Nat) :
    List Location :=
  ((nodes.filter fun n => beforeOk cutoff n.timestamp).map
    fun n => n.location).filter fun loc => bucketOf loc = i

/-- Sort a location list (`std::sort` of one bucket's records). -/
def sortLocs (l : List Location) : List Location :=
  l.insertionSort locLe

/-- The `std::adjacent_find` loop in `find_locations`: push the first
member of each adjacent equal pair and continue searching after the
pair. -/
def collectDups : List Location → List Location
  | [] => []
  | [_] => []
  | a :: b :: rest =>
      if a = b then a :: collectDups rest else collectDups (b :: rest)

/-- Helper for `uniqueAdj`: drop every element equal to the last kept
element `prev`, keep the others. -/
def uniqueAdjAfter (prev : Location) : List Location → List Location
  | [] => []
  | b :: rest =>
      if prev = b then uniqueAdjAfter prev rest
      else b :: uniqueAdjAfter b rest

/-- `std::unique` + `erase`: remove adjacent duplicates, keeping the
first element of each run. -/
def uniqueAdj : List Location → List Location
  | [] => []
  | a :: rest => a :: uniqueAdjAfter a rest

/-- `find_locations`: per bucket sort and collect adjacent-equal runs,
then sort and deduplicate the accumulated result. -/
def findLocations (buckets : Nat → List Location) : List Location :=
  uniqueAdj (sortLocs ((List.range numBuckets).flatMap
    fun i => collectDups (sortLocs (buckets i))))

/-- The whole `BucketedDedupIndex.resolve()` pipeline:
`extract_locations` followed by `find_locations`. -/
def resolveColocated (cutoff : Option Nat) (nodes : List Node) :
    List Location :=
  findLocations (extractLocations cutoff nodes)


/-! ### Lemmas about the dedup pipeline -/

instance : IsTrans Location locLt where
  trans a b c hab hbc := by
    unfold locLt at *
    rcases hab with h1 | ⟨h1, h1'⟩ <;> rcases hbc with h2 | ⟨h2, h2'⟩
    · exact Or.inl (h1.trans h2)
    · exact Or.inl (h2 ▸ h1)
    · exact Or.inl (h1 ▸ h2)
    · exact Or.inr ⟨h1.trans h2, h1'.trans h2'⟩

instance : IsIrrefl Location locLt where
  irrefl a := by unfold locLt; simp

theorem mem_of_mem_collectDups :
    ∀ {l : List Location} {x : Location}, x ∈ collectDups l → x ∈ l := by
  intro l
  induction l using collectDups.induct with
  | case1 => intro x h; simp [collectDups] at h
  | case2 a => intro x h; simp [collectDups] at h
  | case3 b rest ih =>
      intro x h
      rw [collectDups, if_pos rfl] at h
      rcases List.mem_cons.mp h with h | h
      · exact h ▸ List.mem_cons_self _ _
      · exact List.mem_cons_of_mem _ (List.mem_cons_of_mem _ (ih h))
  | case4 a b rest hab ih =>
      intro x h
      rw [collectDups, if_neg hab] at h
      exact List.mem_cons_of_mem _ (ih h)

theorem two_le_count_of_mem_collectDups :
    ∀ {l : List Location} {x : Location}, x ∈ collectDups l → 2 ≤ l.count x := by
  intro l
  induction l using collectDups.induct with
  | case1 => intro x h; simp [collectDups] at h
  | case2 a => intro x h; simp [collectDups] at h
  | case3 b rest ih =>
      intro x h
      rw [collectDups, if_pos rfl] at h
      rcases List.mem_cons.mp h with h | h
      · subst h
        simp [List.count_cons]
      · have := ih h
        simp only [List.count_cons]
        omega
  | case4 a b rest hab ih =>
      intro x h
      rw [collectDups, if_neg hab] at h
      have := ih h
      simp only [List.count_cons] at this ⊢
      omega

theorem mem_collectDups_of_sorted :
    ∀ {l : List Location} {x : Location}, l.Sorted locLe →
      2 ≤ l.count x → x ∈ collectDups l := by
  intro l
  induction l using collectDups.induct with
  | case1 => intro x _ h; simp at h
  | case2 a =>
      intro x _ h
      rcases eq_or_ne x a with rfl | hne
      · simp at h
      · simp [List.count_cons, hne] at h
  | case3 b rest ih =>
      intro x hs hc
      rw [collectDups, if_pos rfl]
      rcases eq_or_ne x b with rfl | hne
      · exact List.mem_cons_self _ _
      · refine List.mem_cons_of_mem _ (ih hs.of_cons.of_cons ?_)
        simpa [List.count_cons, hne] using hc
  | case4 a b rest hab ih =>
      intro x hs hc
      rw [collectDups, if_neg hab]
      have hs1 := (List.sorted_cons.mp hs).1
      have hs2 := (List.sorted_cons.mp hs).2
      have hanotin : a ∉ b :: rest := by
        intro hmem
        rcases List.mem_cons.mp hmem with h | h
        · exact hab h
        · exact hab (antisymm (hs1 _ (List.mem_cons_self _ _))
            ((List.sorted_cons.mp hs2).1 _ h))
      rcases eq_or_ne x a with rfl | hne
      · have : (b :: rest).count x = 0 := List.count_eq_zero.mpr hanotin
        simp [List.count_cons, this] at hc
      · exact ih hs2 (by simpa [List.count_cons, hne] using hc)

theorem mem_collectDups_iff_of_sorted {l : List Location} {x : Location}
    (hs : l.Sorted locLe) : x ∈ collectDups l ↔ 2 ≤ l.count x :=
  ⟨two_le_count_of_mem_collectDups, mem_collectDups_of_sorted hs⟩

theorem mem_of_mem_uniqueAdjAfter {l : List Location} {prev x : Location}
    (h : x ∈ uniqueAdjAfter prev l) : x ∈ l := by
  induction l generalizing prev with
  | nil => simp [uniqueAdjAfter] at h
  | cons b rest ih =>
      rw [uniqueAdjAfter] at h
      split at h
      · exact List.mem_cons_of_mem _ (ih h)
      · rcases List.mem_cons.mp h with h | h
        · exact h ▸ List.mem_cons_self _ _
        · exact List.mem_cons_of_mem _ (ih h)

theorem sorted_uniqueAdjAfter {l : List Location} {prev : Location}
    (hs : l.Sorted locLe) (hge : ∀ y ∈ l, locLe prev y) :
    (uniqueAdjAfter prev l).Sorted locLt ∧
      ∀ z ∈ uniqueAdjAfter prev l, locLt prev z := by
  induction l generalizing prev with
  | nil => simp [uniqueAdjAfter]
  | cons b rest ih =>
      rw [uniqueAdjAfter]
      have hs1 := (List.sorted_cons.mp hs).1
      have hs2 := (List.sorted_cons.mp hs).2
      split
      · rename_i heq
        subst heq
        exact ih hs2 hs1
      · rename_i hne
        have hb := hge b (List.mem_cons_self _ _)
        have hltb : locLt prev b := locLt_of_locLe_ne hb hne
        obtain ⟨ih1, ih2⟩ := ih hs2 hs1
        refine ⟨List.sorted_cons.mpr ⟨ih2, ih1⟩, ?_⟩
        intro z hz
        rcases List.mem_cons.mp hz with rfl | hz
        · exact hltb
        · exact Trans.trans hltb (ih2 z hz)

theorem mem_uniqueAdjAfter_of_mem {l : List Location} {prev x : Location}
    (hs : l.Sorted locLe) (hge : ∀ y ∈ l, locLe prev y)
    (hmem : x ∈ l) (hne : x ≠ prev) : x ∈ uniqueAdjAfter prev l := by
  induction l generalizing prev with
  | nil => simp at hmem
  | cons b rest ih =>
      rw [uniqueAdjAfter]
      have hs1 := (List.sorted_cons.mp hs).1
      have hs2 := (List.sorted_cons.mp hs).2
      split
      · rename_i heq
        subst heq
        rcases List.mem_cons.mp hmem with rfl | hmem
        · exact absurd rfl hne
        · exact ih hs2 hs1 hmem hne
      · rcases List.mem_cons.mp hmem with rfl | hmem
        · exact List.mem_cons_self _ _
        · rcases eq_or_ne x b with rfl | hxb
          · exact List.mem_cons_self _ _
          · exact List.mem_cons_of_mem _ (ih hs2 hs1 hmem hxb)

theorem mem_uniqueAdj_iff {l : List Location} {x : Location}
    (hs : l.Sorted locLe) : x ∈ uniqueAdj l ↔ x ∈ l := by
  cases l with
  | nil => simp [uniqueAdj]
  | cons a rest =>
      rw [uniqueAdj]
      have hs1 := (List.sorted_cons.mp hs).1
      have hs2 := (List.sorted_cons.mp hs).2
      constructor
      · intro h
        rcases List.mem_cons.mp h with rfl | h
        · exact List.mem_cons_self _ _
        · exact List.mem_cons_of_mem _ (mem_of_mem_uniqueAdjAfter h)
      · intro h
        rcases List.mem_cons.mp h with rfl | h
        · exact List.mem_cons_self _ _
        · rcases eq_or_ne x a with rfl | hxa
          · exact List.mem_cons_self _ _
          · exact List.mem_cons_of_mem _
              (mem_uniqueAdjAfter_of_mem hs2 hs1 h hxa)

theorem sorted_uniqueAdj {l : List Location} (hs : l.Sorted locLe) :
    (uniqueAdj l).Sorted locLt := by
  cases l with
  | nil => simp [uniqueAdj]
  | cons a rest =>
      rw [uniqueAdj]
      have hs1 := (List.sorted_cons.mp hs).1
      have hs2 := (List.sorted_cons.mp hs).2
      obtain ⟨h1, h2⟩ := sorted_uniqueAdjAfter hs2 hs1
      exact List.sorted_cons.mpr ⟨h2, h1⟩

theorem sortLocs_perm (l : List Location) : (sortLocs l).Perm l :=
  List.perm_insertionSort locLe l

theorem sortLocs_sorted (l : List Location) : (sortLocs l).Sorted locLe :=
  List.sorted_insertionSort locLe l

theorem bucketOf_lt_numBuckets (loc : Location) : bucketOf loc < numBuckets := by
  have h1 : (0 : Int) ≤ loc.x % 256 := Int.emod_nonneg _ (by norm_num)
  have h2 : loc.x % 256 < 256 := Int.emod_lt_of_pos _ (by norm_num)
  unfold bucketOf numBuckets
  omega

/-- The locations of the nodes passing the time filter, in stream
order. -/
def filteredLocs (cutoff : Option Nat) (nodes : List Node) : List Location :=
  (nodes.filter fun n => beforeOk cutoff n.timestamp).map fun n => n.location

theorem extractLocations_eq_filter (cutoff : Option Nat) (nodes : List Node)
    (i : Nat) :
    extractLocations cutoff nodes i =
      (filteredLocs cutoff nodes).filter fun loc => bucketOf loc = i := rfl

theorem count_extractLocations_bucketOf (cutoff : Option Nat)
    (nodes : List Node) (loc : Location) :
    (extractLocations cutoff nodes (bucketOf loc)).count loc =
      (filteredLocs cutoff nodes).count loc := by
  rw [extractLocations_eq_filter]
  exact List.count_filter (by simp)

theorem mem_resolveColocated_iff (cutoff : Option Nat) (nodes : List Node)
    (loc : Location) :
    loc ∈ resolveColocated cutoff nodes ↔
      2 ≤ (filteredLocs cutoff nodes).count loc := by
  unfold resolveColocated findLocations
  rw [mem_uniqueAdj_iff (sortLocs_sorted _),
    (sortLocs_perm _).mem_iff, List.mem_flatMap]
  constructor
  · rintro ⟨i, -, hmem⟩
    have h1 := two_le_count_of_mem_collectDups hmem
    rw [(sortLocs_perm _).count_eq] at h1
    calc 2 ≤ (extractLocations cutoff nodes i).count loc := h1
      _ ≤ (filteredLocs cutoff nodes).count loc := by
          rw [extractLocations_eq_filter]
          exact (List.filter_sublist _).count_le loc
  · intro h
    refine ⟨bucketOf loc, List.mem_range.mpr (bucketOf_lt_numBuckets loc), ?_⟩
    apply mem_collectDups_of_sorted (sortLocs_sorted _)
    rw [(sortLocs_perm _).count_eq, count_extractLocations_bucketOf]
    exact h

theorem sorted_resolveColocated (cutoff : Option Nat) (nodes : List Node) :
    (resolveColocated cutoff nodes).Sorted locLt :=
  sorted_uniqueAdj (sortLocs_sorted _)

/-- C1.  `BucketedDedupIndex.resolve()` (extract_locations followed by
find_locations) returns a sorted, duplicate-free sequence containing
exactly the coordinates held by two or more Point records whose
timestamp passes the time filter (all records when no cutoff is given):
a coordinate is in the result iff its multiplicity among qualifying
records is at least two, the result is strictly sorted (hence each such
coordinate appears exactly once), and the result is invariant under
reordering of the input stream. -/
theorem C1_resolve_exact (cutoff : Option Nat) (nodes nodes' : List Node) :
    (resolveColocated cutoff nodes).Sorted locLt ∧
    (∀ loc, loc ∈ resolveColocated cutoff nodes ↔
      2 ≤ (filteredLocs cutoff nodes).count loc) ∧
    (nodes.Perm nodes' →
      resolveColocated cutoff nodes = resolveColocated cutoff nodes') := by
  refine ⟨sorted_resolveColocated cutoff nodes,
    fun loc => mem_resolveColocated_iff cutoff nodes loc, fun hp => ?_⟩
  have hsort1 := sorted_resolveColocated cutoff nodes
  have hsort2 := sorted_resolveColocated cutoff nodes'
  have hcount : ∀ loc, (filteredLocs cutoff nodes).count loc =
      (filteredLocs cutoff nodes').count loc := fun loc =>
    ((hp.filter _).map _).count_eq loc
  have hmem : ∀ loc, loc ∈ resolveColocated cutoff nodes ↔
      loc ∈ resolveColocated cutoff nodes' := by
    intro loc
    rw [mem_resolveColocated_iff, mem_resolveColocated_iff, hcount]
  exact List.eq_of_perm_of_sorted
    ((List.perm_ext_iff_of_nodup hsort1.nodup hsort2.nodup).mpr hmem)
    hsort1 hsort2

/-- Witness for C1: evaluated at the concrete three-node stream of the
spec's dedup scenario, with a reordering of the input. -/
theorem C1_resolve_exact_witness :
    resolveColocated none
        [⟨1, 0, [], ⟨10, 20⟩⟩, ⟨2, 0, [], ⟨10, 20⟩⟩, ⟨3, 0, [], ⟨30, 40⟩⟩] =
      resolveColocated none
        [⟨3, 0, [], ⟨30, 40⟩⟩, ⟨1, 0, [], ⟨10, 20⟩⟩, ⟨2, 0, [], ⟨10, 20⟩⟩] :=
  (C1_resolve_exact none
    [⟨1, 0, [], ⟨10, 20⟩⟩, ⟨2, 0, [], ⟨10, 20⟩⟩, ⟨3, 0, [], ⟨30, 40⟩⟩]
    [⟨3, 0, [], ⟨30, 40⟩⟩, ⟨1, 0, [], ⟨10, 20⟩⟩, ⟨2, 0, [], ⟨10, 20⟩⟩]).2.2
    (by decide)

/-! ## Colocated second pass (CheckHandler in odad-find-colocated-nodes.cpp)

The second pass re-streams all entities.  A node is written to the
"colocated" output iff `std::equal_range` over the sorted duplicate
list finds its location (on a sorted list this is exactly membership);
its positive id is remembered in `m_node_ids`.  A way (relation) is
written as soon as one node reference (node member) hits
`m_node_ids`, and the loop `break`s after that first write. -/

/-- `std::equal_range` over the sorted location vector returns a
non-empty range iff the location occurs in the list. -/
def inLocations (locations : List Location) (loc : Location) : Bool :=
  locations.contains loc

/-- `CheckHandler::node`: the node is emitted iff its location is found
in the duplicate list. -/
def colocatedNodeEmitted (locations : List Location) (n : Node) : Bool :=
  inLocations locations n.location

/-- `m_node_ids` after the node pass: positive ids of every emitted
node (nodes precede ways and relations in the stream). -/
def colocatedNodeIds (locations : List Location) (nodes : List Node) :
    List Nat :=
  (nodes.filter fun n => colocatedNodeEmitted locations n).map
    fun n => positiveId n.id

/-- `CheckHandler::way`: walk the node references; on the first hit in
`m_node_ids` write the way once and `break`.  Returns the number of
writes of this way. -/
def colocatedWayWrites (nodeIds : List Nat) : List Int → Nat
  | [] => 0
  | r :: rest =>
      if nodeIds.contains (positiveId r) then 1
      else colocatedWayWrites nodeIds rest

/-- `CheckHandler::relation`: walk the members; on the first node
member whose positive ref is in `m_node_ids` write the relation once
and `break`.  Returns the number of writes of this relation. -/
def colocatedRelWrites (nodeIds : List Nat) : List Member → Nat
  | [] => 0
  | m :: rest =>
      if m.type = ItemType.node ∧ nodeIds.contains (positiveId m.ref) then 1
      else colocatedRelWrites nodeIds rest

theorem colocatedWayWrites_eq_one_iff (nodeIds : List Nat)
    (refs : List Int) :
    colocatedWayWrites nodeIds refs = 1 ↔
      ∃ r ∈ refs, positiveId r ∈ nodeIds := by
  induction refs with
  | nil => simp [colocatedWayWrites]
  | cons r rest ih =>
      rw [colocatedWayWrites]
      split
      · rename_i h
        simp only [List.contains] at h
        simp only [true_iff]
        exact ⟨r, List.mem_cons_self _ _, List.elem_iff.mp h⟩
      · rename_i h
        rw [ih]
        constructor
        · rintro ⟨x, hx, hmem⟩
          exact ⟨x, List.mem_cons_of_mem _ hx, hmem⟩
        · rintro ⟨x, hx, hmem⟩
          rcases List.mem_cons.mp hx with rfl | hx
          · exact absurd (List.elem_iff.mpr hmem) (by simpa using h)
          · exact ⟨x, hx, hmem⟩

theorem colocatedRelWrites_eq_one_iff (nodeIds : List Nat)
    (members : List Member) :
    colocatedRelWrites nodeIds members = 1 ↔
      ∃ m ∈ members, m.type = ItemType.node ∧ positiveId m.ref ∈ nodeIds := by
  induction members with
  | nil => simp [colocatedRelWrites]
  | cons m rest ih =>
      rw [colocatedRelWrites]
      split
      · rename_i h
        simp only [true_iff]
        exact ⟨m, List.mem_cons_self _ _, h.1, List.elem_iff.mp h.2⟩
      · rename_i h
        rw [ih]
        constructor
        · rintro ⟨x, hx, hmem⟩
          exact ⟨x, List.mem_cons_of_mem _ hx, hmem⟩
        · rintro ⟨x, hx, htype, hmem⟩
          rcases List.mem_cons.mp hx with rfl | hx
          · exact absurd ⟨htype, List.elem_iff.mpr hmem⟩ h
          · exact ⟨x, hx, htype, hmem⟩

theorem mem_colocatedNodeIds_iff (locations : List Location)
    (nodes : List Node) (pid : Nat) :
    pid ∈ colocatedNodeIds locations nodes ↔
      ∃ n ∈ nodes, colocatedNodeEmitted locations n = true ∧
        positiveId n.id = pid := by
  unfold colocatedNodeIds
  rw [List.mem_map]
  constructor
  · rintro ⟨n, hn, rfl⟩
    obtain ⟨hn1, hn2⟩ := List.mem_filter.mp hn
    exact ⟨n, hn1, hn2, rfl⟩
  · rintro ⟨n, hn, hemit, rfl⟩
    exact ⟨n, List.mem_filter.mpr ⟨hn, hemit⟩, rfl⟩

/-- C3.  In the colocated second pass, a Point entity is emitted to the
colocated channel iff its coordinate lies in the resolved duplicate
set; a Line (Group) is flagged to that channel iff one of its node
references (node members) carries the positive id of an emitted Point;
and on the concrete stream P1(id=1,(10,20)), P2(id=2,(10,20)),
P3(id=3,(30,40)) with no cutoff, exactly P1 and P2 are emitted. -/
theorem C3_second_pass (cutoff : Option Nat) (nodes : List Node) :
    (∀ n : Node, colocatedNodeEmitted (resolveColocated cutoff nodes) n =
        true ↔ n.location ∈ resolveColocated cutoff nodes) ∧
    (∀ w : Way,
      colocatedWayWrites
          (colocatedNodeIds (resolveColocated cutoff nodes) nodes)
          w.nodeRefs = 1 ↔
        ∃ r ∈ w.nodeRefs, ∃ n ∈ nodes,
          colocatedNodeEmitted (resolveColocated cutoff nodes) n = true ∧
            positiveId n.id = positiveId r) ∧
    (∀ rel : OsmRelation,
      colocatedRelWrites
          (colocatedNodeIds (resolveColocated cutoff nodes) nodes)
          rel.members = 1 ↔
        ∃ m ∈ rel.members, m.type = ItemType.node ∧ ∃ n ∈ nodes,
          colocatedNodeEmitted (resolveColocated cutoff nodes) n = true ∧
            positiveId n.id = positiveId m.ref) ∧
    ([(⟨1, 0, [], ⟨10, 20⟩⟩ : Node), ⟨2, 0, [], ⟨10, 20⟩⟩,
        ⟨3, 0, [], ⟨30, 40⟩⟩].filter fun n =>
        colocatedNodeEmitted
          (resolveColocated none
            [⟨1, 0, [], ⟨10, 20⟩⟩, ⟨2, 0, [], ⟨10, 20⟩⟩,
              ⟨3, 0, [], ⟨30, 40⟩⟩]) n) =
      [⟨1, 0, [], ⟨10, 20⟩⟩, ⟨2, 0, [], ⟨10, 20⟩⟩] := by
  refine ⟨?_, ?_, ?_, by decide⟩
  · intro n
    unfold colocatedNodeEmitted inLocations
    simp [List.contains]
  · intro w
    rw [colocatedWayWrites_eq_one_iff]
    constructor
    · rintro ⟨r, hr, hmem⟩
      obtain ⟨n, hn, hemit, hpid⟩ :=
        (mem_colocatedNodeIds_iff _ _ _).mp hmem
      exact ⟨r, hr, n, hn, hemit, hpid⟩
    · rintro ⟨r, hr, n, hn, hemit, hpid⟩
      exact ⟨r, hr, (mem_colocatedNodeIds_iff _ _ _).mpr ⟨n, hn, hemit, hpid⟩⟩
  · intro rel
    rw [colocatedRelWrites_eq_one_iff]
    constructor
    · rintro ⟨m, hm, htype, hmem⟩
      obtain ⟨n, hn, hemit, hpid⟩ :=
        (mem_colocatedNodeIds_iff _ _ _).mp hmem
      exact ⟨m, hm, htype, n, hn, hemit, hpid⟩
    · rintro ⟨m, hm, htype, n, hn, hemit, hpid⟩
      exact ⟨m, hm, htype,
        (mem_colocatedNodeIds_iff _ _ _).mpr ⟨n, hn, hemit, hpid⟩⟩

/-! ## Orphan detection (odad-find-orphans.cpp)

Pass 1 (`create_index_of_referenced_objects`) records, for every way,
the positive id of each node reference into the node index and, for
every relation, each member's `(type, positive ref)` into the index of
that type.  Pass 2 (`CheckHandler`) emits an object iff its timestamp
passes the time filter, its positive id is absent from its kind's
index, and its tags match the requested policy: untagged objects when
`--untagged` reporting is on, or tagged objects whose keys all match
the filter `created_by` / `source` when tagged reporting is on. -/

/-- A value of the heterogeneous entity stream. -/
inductive OSMObject where
  | node (n : Node)
  | way (w : Way)
  | rel (r : OsmRelation)
  deriving DecidableEq, Repr

/-- The kind of a streamed object (`osmium::OSMObject::type()`). -/
def objKind : OSMObject → ItemType
  | .node _ => ItemType.node
  | .way _ => ItemType.way
  | .rel _ => ItemType.rel

/-- The signed id of a streamed object. -/
def objId : OSMObject → Int
  | .node n => n.id
  | .way w => w.id
  | .rel r => r.id

/-- The timestamp of a streamed object. -/
def objTimestamp : OSMObject → Nat
  | .node n => n.timestamp
  | .way w => w.timestamp
  | .rel r => r.timestamp

/-- The tag list of a streamed object. -/
def objTags : OSMObject → List Tag
  | .node n => n.tags
  | .way w => w.tags
  | .rel r => r.tags

/-- `create_index_of_referenced_objects`: the set of `(kind, positive
id)` pairs recorded by the first pass, as a list. -/
def refPairs (objs : List OSMObject) : List (ItemType × Nat) :=
  objs.flatMap fun o =>
    match o with
    | .node _ => []
    | .way w => w.nodeRefs.map fun r => (ItemType.node, positiveId r)
    | .rel r => r.members.map fun m => (m.type, positiveId m.ref)

/-- `m_index(type).get(pid)`: presence in the reference index. -/
def referenced (objs : List OSMObject) (t : ItemType) (pid : Nat) : Bool :=
  (refPairs objs).contains (t, pid)

/-- The orphan tool's options: time cutoff and the two reporting
policies (`untagged` / `tagged`, both default true). -/
structure OrphanOptions where
  before_time : Option Nat
  untagged : Bool
  tagged : Bool
  deriving DecidableEq, Repr

/-- `m_filter`: a `TagsFilter(false)` with true-rules for the keys
`created_by` and `source` — a tag matches iff its key is one of
these. -/
def orphanFilterMatch (t : Tag) : Bool :=
  t.key == "created_by" || t.key == "source"

/-- The tag-policy disjunction shared by the three handlers. -/
def orphanTagPolicy (opts : OrphanOptions) (tags : List Tag) : Bool :=
  (opts.untagged && tags.isEmpty) ||
    (opts.tagged && !tags.isEmpty && tags.all orphanFilterMatch)

/-- Second-pass handler (`CheckHandler::node` / `way` / `relation`):
early return on the time filter, then on a reference-index hit, then
emit iff the tag policy matches. -/
def orphanEmitted (opts : OrphanOptions) (objs : List OSMObject)
    (o : OSMObject) : Bool :=
  if !beforeOk opts.before_time (objTimestamp o) then false
  else if referenced objs (objKind o) (positiveId (objId o)) then false
  else orphanTagPolicy opts (objTags o)

theorem referenced_iff (objs : List OSMObject) (t : ItemType) (pid : Nat) :
    referenced objs t pid = true ↔
      (t = ItemType.node ∧ ∃ w : Way, OSMObject.way w ∈ objs ∧
        ∃ r ∈ w.nodeRefs, positiveId r = pid) ∨
      (∃ g : OsmRelation, OSMObject.rel g ∈ objs ∧
        ∃ m ∈ g.members, m.type = t ∧ positiveId m.ref = pid) := by
  unfold referenced
  simp only [List.contains, List.elem_iff]
  rw [refPairs, List.mem_flatMap]
  constructor
  · rintro ⟨o, ho, hmem⟩
    cases o with
    | node n => simp at hmem
    | way w =>
        obtain ⟨r, hr, heq⟩ := List.mem_map.mp hmem
        obtain ⟨h1, h2⟩ := Prod.mk.injEq .. ▸ heq
        exact Or.inl ⟨h1.symm, w, ho, r, hr, h2⟩
    | rel g =>
        obtain ⟨m, hm, heq⟩ := List.mem_map.mp hmem
        obtain ⟨h1, h2⟩ := Prod.mk.injEq .. ▸ heq
        exact Or.inr ⟨g, ho, m, hm, h1, h2⟩
  · rintro (⟨rfl, w, hw, r, hr, hpid⟩ | ⟨g, hg, m, hm, htype, hpid⟩)
    · exact ⟨OSMObject.way w, hw, List.mem_map.mpr ⟨r, hr, by rw [hpid]⟩⟩
    · exact ⟨OSMObject.rel g, hg,
        List.mem_map.mpr ⟨m, hm, by rw [htype, hpid]⟩⟩

theorem orphanEmitted_eq (opts : OrphanOptions) (objs : List OSMObject)
    (o : OSMObject) :
    orphanEmitted opts objs o =
      (beforeOk opts.before_time (objTimestamp o) &&
        !referenced objs (objKind o) (positiveId (objId o)) &&
        orphanTagPolicy opts (objTags o)) := by
  unfold orphanEmitted
  cases hbef : beforeOk opts.before_time (objTimestamp o) <;>
    cases href : referenced objs (objKind o) (positiveId (objId o)) <;>
      simp [hbef, href]

theorem orphanTagPolicy_iff (opts : OrphanOptions) (tags : List Tag) :
    orphanTagPolicy opts tags = true ↔
      (opts.untagged = true ∧ tags = []) ∨
      (opts.tagged = true ∧ tags ≠ [] ∧
        ∀ t ∈ tags, t.key = "created_by" ∨ t.key = "source") := by
  unfold orphanTagPolicy orphanFilterMatch
  simp only [Bool.or_eq_true, Bool.and_eq_true, List.isEmpty_iff,
    Bool.not_eq_true', List.all_eq_true, beq_iff_eq, List.isEmpty_eq_false]
  tauto

/-- C2.  In the second orphan pass an entity is emitted iff (i) no
container entity in the input references its kind and positive id —
no way node reference and no relation member for a Point, no relation
member of the matching kind for a Line or Group — (ii) its timestamp
passes the time filter, and (iii) untagged reporting is on and its tag
set is empty, or tagged reporting is on and its tag set is non-empty
with every key in the ignorable set (created_by, source); and in the
concrete scenario (Line L1 references Points 1, 2; Group G1 references
L1) the untagged unreferenced Point 3 is flagged while Points 1 and 2
are not. -/
theorem C2_orphan_emitted (opts : OrphanOptions) (objs : List OSMObject) :
    (∀ o : OSMObject, orphanEmitted opts objs o = true ↔
      ¬((objKind o = ItemType.node ∧ ∃ w : Way, OSMObject.way w ∈ objs ∧
          ∃ r ∈ w.nodeRefs, positiveId r = positiveId (objId o)) ∨
        (∃ g : OsmRelation, OSMObject.rel g ∈ objs ∧
          ∃ m ∈ g.members, m.type = objKind o ∧
            positiveId m.ref = positiveId (objId o))) ∧
      beforeOk opts.before_time (objTimestamp o) = true ∧
      ((opts.untagged = true ∧ objTags o = []) ∨
        (opts.tagged = true ∧ objTags o ≠ [] ∧
          ∀ t ∈ objTags o, t.key = "created_by" ∨ t.key = "source"))) ∧
    (orphanEmitted ⟨none, true, true⟩
        [.node ⟨1, 0, [], ⟨0, 0⟩⟩, .node ⟨2, 0, [], ⟨1, 1⟩⟩,
          .node ⟨3, 0, [], ⟨2, 2⟩⟩, .way ⟨100, 0, [], [1, 2]⟩,
          .rel ⟨200, 0, [], [⟨ItemType.way, 100, ""⟩]⟩]
        (.node ⟨3, 0, [], ⟨2, 2⟩⟩) = true ∧
      orphanEmitted ⟨none, true, true⟩
        [.node ⟨1, 0, [], ⟨0, 0⟩⟩, .node ⟨2, 0, [], ⟨1, 1⟩⟩,
          .node ⟨3, 0, [], ⟨2, 2⟩⟩, .way ⟨100, 0, [], [1, 2]⟩,
          .rel ⟨200, 0, [], [⟨ItemType.way, 100, ""⟩]⟩]
        (.node ⟨1, 0, [], ⟨0, 0⟩⟩) = false ∧
      orphanEmitted ⟨none, true, true⟩
        [.node ⟨1, 0, [], ⟨0, 0⟩⟩, .node ⟨2, 0, [], ⟨1, 1⟩⟩,
          .node ⟨3, 0, [], ⟨2, 2⟩⟩, .way ⟨100, 0, [], [1, 2]⟩,
          .rel ⟨200, 0, [], [⟨ItemType.way, 100, ""⟩]⟩]
        (.node ⟨2, 0, [], ⟨1, 1⟩⟩) = false) := by
  refine ⟨?_, by decide⟩
  intro o
  rw [orphanEmitted_eq]
  simp only [Bool.and_eq_true, Bool.not_eq_true']
  constructor
  · rintro ⟨⟨hbef, href⟩, hpol⟩
    refine ⟨?_, hbef, (orphanTagPolicy_iff opts (objTags o)).mp hpol⟩
    intro hcontra
    rw [← referenced_iff objs (objKind o) (positiveId (objId o))] at hcontra
    rw [href] at hcontra
    exact Bool.false_ne_true hcontra
  · rintro ⟨href, hbef, hpol⟩
    refine ⟨⟨hbef, ?_⟩, (orphanTagPolicy_iff opts (objTags o)).mpr hpol⟩
    cases h : referenced objs (objKind o) (positiveId (objId o))
    · rfl
    · exact absurd ((referenced_iff objs (objKind o)
        (positiveId (objId o))).mp h) href

/-! ## Multipolygon tag rules (odad-find-multipolygon-problems.cpp)

`MPFilter` is a `TagsFilter(true)` with false-rules for the keys
`type`, `created_by`, `source` and `note`: a tag matches iff its key is
none of these.  `compare_tags` and `conflicting_tags` compare the
filtered member tags element-wise (`std::equal` over
`boost::filter_iterator`s, so in stored order) against the filtered
relation tags, requiring equal filtered cardinality and a non-empty
filtered member tag list. -/

/-- `MPFilter`: true iff the tag's key is outside the excluded set. -/
def mpFilterMatch (t : Tag) : Bool :=
  !(t.key == "type" || t.key == "created_by" ||
    t.key == "source" || t.key == "note")

/-- The filtered view of a tag list (keys in the excluded set
removed). -/
def filteredTags (tags : List Tag) : List Tag :=
  tags.filter mpFilterMatch

/-- Three-iterator `std::equal`: compare `l1` element-wise against the
first `l1.length` elements of `l2` (conservatively false when `l2` is
shorter, where the C++ would read past the end). -/
def stdEqualBy (eq : Tag → Tag → Bool) (l1 l2 : List Tag) : Bool :=
  decide (l1.length ≤ l2.length) && (l1.zip l2).all fun p => eq p.1 p.2

/-- `CheckMPManager::compare_tags`: the filtered member tags are
non-empty (`d > 0`), element-wise equal to the filtered relation tags,
and of the same filtered cardinality. -/
def compare_tags (rtags wtags : List Tag) : Bool :=
  let wf := filteredTags wtags
  let rf := filteredTags rtags
  decide (0 < wf.length) &&
    (stdEqualBy (fun a b => a == b) wf rf && (wf.length == rf.length))

/-- `CheckMPManager::conflicting_tags`: like `compare_tags` but the
element-wise comparison only compares keys (`KeyCompare`). -/
def conflicting_tags (rtags wtags : List Tag) : Bool :=
  let wf := filteredTags wtags
  let rf := filteredTags rtags
  decide (0 < wf.length) &&
    (stdEqualBy (fun a b => a.key == b.key) wf rf && (wf.length == rf.length))

/-- `osmium::TagList::get_value_by_key`. -/
def getValueByKey (tags : List Tag) (k : String) : Option String :=
  (tags.find? fun t => t.key == k).map fun t => t.value

/-- `osmium::TagList::has_tag(key, value)`. -/
def hasTag (tags : List Tag) (k v : String) : Bool :=
  match getValueByKey tags k with
  | some v' => v' == v
  | none => false

/-- `osmium::tags::match_none_of(tags, m_filter)`: no tag matches the
filter. -/
def match_none_of_mp (tags : List Tag) : Bool :=
  tags.all fun t => !mpFilterMatch t

/-- `osmium::Way::is_closed()`: first and last node reference are
equal (empty ways are treated as not closed). -/
def isClosedWay (w : Way) : Bool :=
  decide (w.nodeRefs ≠ []) && (w.nodeRefs.head? == w.nodeRefs.getLast?)

theorem zip_all_eq_iff {l1 l2 : List Tag} (hlen : l1.length = l2.length) :
    ((l1.zip l2).all fun p => p.1 == p.2) = true ↔ l1 = l2 := by
  induction l1 generalizing l2 with
  | nil =>
      cases l2 with
      | nil => simp
      | cons b t2 => simp at hlen
  | cons a t ih =>
      cases l2 with
      | nil => simp at hlen
      | cons b t2 =>
          simp only [List.length_cons, Nat.add_right_cancel_iff] at hlen
          simp only [List.zip_cons_cons, List.all_cons, Bool.and_eq_true,
            beq_iff_eq, List.cons.injEq]
          rw [ih hlen]

theorem zip_all_key_eq_iff {l1 l2 : List Tag} (hlen : l1.length = l2.length) :
    ((l1.zip l2).all fun p => p.1.key == p.2.key) = true ↔
      l1.map Tag.key = l2.map Tag.key := by
  induction l1 generalizing l2 with
  | nil =>
      cases l2 with
      | nil => simp
      | cons b t2 => simp at hlen
  | cons a t ih =>
      cases l2 with
      | nil => simp at hlen
      | cons b t2 =>
          simp only [List.length_cons, Nat.add_right_cancel_iff] at hlen
          simp only [List.zip_cons_cons, List.all_cons, Bool.and_eq_true,
            beq_iff_eq, List.map_cons, List.cons.injEq]
          rw [ih hlen]

theorem compare_tags_iff (rtags wtags : List Tag) :
    compare_tags rtags wtags = true ↔
      (filteredTags wtags ≠ [] ∧ filteredTags wtags = filteredTags rtags) := by
  unfold compare_tags stdEqualBy
  simp only [Bool.and_eq_true, decide_eq_true_eq, beq_iff_eq]
  constructor
  · rintro ⟨hpos, ⟨-, hzip⟩, hlen⟩
    refine ⟨List.length_pos.mp hpos, (zip_all_eq_iff hlen).mp hzip⟩
  · rintro ⟨hne, heq⟩
    have hlen : (filteredTags wtags).length = (filteredTags rtags).length := by
      rw [heq]
    exact ⟨List.length_pos.mpr hne, ⟨le_of_eq hlen,
      (zip_all_eq_iff hlen).mpr heq⟩, hlen⟩

theorem conflicting_tags_iff (rtags wtags : List Tag) :
    conflicting_tags rtags wtags = true ↔
      (filteredTags wtags ≠ [] ∧
        (filteredTags wtags).map Tag.key = (filteredTags rtags).map Tag.key) := by
  unfold conflicting_tags stdEqualBy
  simp only [Bool.and_eq_true, decide_eq_true_eq, beq_iff_eq]
  constructor
  · rintro ⟨hpos, ⟨-, hzip⟩, hlen⟩
    refine ⟨List.length_pos.mp hpos, (zip_all_key_eq_iff hlen).mp hzip⟩
  · rintro ⟨hne, heq⟩
    have hlen : (filteredTags wtags).length = (filteredTags rtags).length := by
      have := congrArg List.length heq
      simpa using this
    exact ⟨List.length_pos.mpr hne, ⟨le_of_eq hlen,
      (zip_all_key_eq_iff hlen).mpr heq⟩, hlen⟩

theorem match_none_of_mp_iff (tags : List Tag) :
    match_none_of_mp tags = true ↔ filteredTags tags = [] := by
  unfold match_none_of_mp filteredTags
  rw [List.filter_eq_nil_iff, List.all_eq_true]
  simp

/-! ## RelationMemberResolver (RelationsManager protocol)

`new_relation` and `new_member` are the manager callbacks defined in
`odad-find-multipolygon-problems.cpp`.  The buffering manager itself
(`osmium::relations::RelationsManager`) is not part of this
repository's sources; its Stage A/B/C behaviour is modelled from the
spec below. -/

/-- `CheckMPManager::new_relation`: keep relations tagged
`type=multipolygon`. -/
def new_relation (r : OsmRelation) : Bool :=
  hasTag r.tags "type" "multipolygon"

/-- `CheckMPManager::new_member`: ask the manager to collect way
members only. -/
def new_member (m : Member) : Bool :=
  m.type == ItemType.way

/-- Modelled from the spec: Stage A's "wanted" set — the member ids of
kind Line that `new_member` accepted, over all candidate Groups
retained by `new_relation` (the relation scan of the three-stage
protocol, performed by the external `RelationsManager`). -/
def wantedWayIds (rels : List OsmRelation) : List Int :=
  (rels.filter new_relation).flatMap fun r =>
    (r.members.filter new_member).map fun m => m.ref

/-- Modelled from the spec: Stage B's member cache — the Line entities
of the stream whose ids are in the wanted set, keyed by id. -/
def memberCache (ways : List Way) (wanted : List Int) : List Way :=
  ways.filter fun w => wanted.contains w.id

/-- `RelationsManager::get_member_way`, over the Stage-B cache. -/
def get_member_way (cache : List Way) (ref : Int) : Option Way :=
  cache.find? fun w => w.id == ref

/-- Modelled from the spec: the manager replays (`complete_relation`)
a candidate once every member it asked for is available in the
input. -/
def allWayMembersAvailable (ways : List Way) (r : OsmRelation) : Bool :=
  r.members.all fun m => !(new_member m) || ways.any fun w => w.id == m.ref

/-- C4.  During Stage C replay, every lookup of a Line member in the
Stage-B member cache succeeds: for every candidate Group that reaches
`complete_relation` (all collected members available) and every member
of kind Line, `get_member_way` over the cache built from Stage A's
wanted set returns the cached member record. -/
theorem C4_stage_c_lookup (rels : List OsmRelation) (ways : List Way)
    (r : OsmRelation) (hr : r ∈ rels) (hcand : new_relation r = true)
    (havail : allWayMembersAvailable ways r = true)
    (m : Member) (hm : m ∈ r.members) (hway : m.type = ItemType.way) :
    ∃ w : Way,
      get_member_way (memberCache ways (wantedWayIds rels)) m.ref = some w ∧
        w.id = m.ref := by
  have hnm : new_member m = true := by
    unfold new_member
    rw [hway]
    rfl
  have hwanted : m.ref ∈ wantedWayIds rels := by
    unfold wantedWayIds
    rw [List.mem_flatMap]
    exact ⟨r, List.mem_filter.mpr ⟨hr, hcand⟩,
      List.mem_map.mpr ⟨m, List.mem_filter.mpr ⟨hm, hnm⟩, rfl⟩⟩
  obtain ⟨w, hw, hid⟩ : ∃ w ∈ ways, (w.id == m.ref) = true := by
    have := (List.all_eq_true.mp havail) m hm
    rw [hnm] at this
    simp only [Bool.not_true, Bool.false_or, List.any_eq_true] at this
    exact this
  have hwcache : w ∈ memberCache ways (wantedWayIds rels) := by
    unfold memberCache
    refine List.mem_filter.mpr ⟨hw, ?_⟩
    rw [List.contains, List.elem_iff]
    exact (beq_iff_eq ..).mp hid ▸ hwanted
  have hsome : (get_member_way (memberCache ways (wantedWayIds rels))
      m.ref).isSome = true := by
    unfold get_member_way
    rw [List.find?_isSome]
    exact ⟨w, hwcache, hid⟩
  obtain ⟨w', hw'⟩ := Option.isSome_iff_exists.mp hsome
  refine ⟨w', hw', ?_⟩
  have := List.find?_some hw'
  exact (beq_iff_eq ..).mp this

/-- Witness for C4: a single candidate relation with one way member
that is present in the stream. -/
theorem C4_stage_c_lookup_witness :
    ∃ w : Way,
      get_member_way
          (memberCache [⟨5, 0, [], [1, 2, 1]⟩]
            (wantedWayIds
              [⟨1, 0, [⟨"type", "multipolygon"⟩],
                [⟨ItemType.way, 5, "outer"⟩]⟩]))
          (5 : Int) = some w ∧
        w.id = (5 : Int) :=
  C4_stage_c_lookup
    [⟨1, 0, [⟨"type", "multipolygon"⟩], [⟨ItemType.way, 5, "outer"⟩]⟩]
    [⟨5, 0, [], [1, 2, 1]⟩]
    ⟨1, 0, [⟨"type", "multipolygon"⟩], [⟨ItemType.way, 5, "outer"⟩]⟩
    (by decide) (by decide) (by decide)
    ⟨ItemType.way, 5, "outer"⟩ (by decide) (by decide)

/-- Accumulator of `CheckMPManager::complete_relation`'s member loop:
the marks vector, the `same_tags` / `same_keys` flags and the two
per-member statistics counters. -/
structure MPLoopState where
  marks : List Nat
  same_tags : Bool
  same_keys : Bool
  cnt_same : Nat
  cnt_conflict : Nat
  deriving DecidableEq, Repr

/-- One iteration of the member loop of `complete_relation`: for a way
member, look the way up in the cache; record a mark if `compare_tags`
holds, else — only for a closed way whose role is not "inner" — if
`conflicting_tags` holds. -/
def mpStep (rtags : List Tag) (get : Int → Option Way) (m : Member)
    (s : MPLoopState) : MPLoopState :=
  if m.type = ItemType.way then
    match get m.ref with
    | some w =>
        if compare_tags rtags w.tags then
          { s with
            marks := s.marks ++ [positiveId w.id]
            same_tags := true
            cnt_same := s.cnt_same + 1 }
        else if isClosedWay w && !(m.role == "inner") &&
            conflicting_tags rtags w.tags then
          { s with
            marks := s.marks ++ [positiveId w.id]
            same_keys := true
            cnt_conflict := s.cnt_conflict + 1 }
        else s
    | none => s
  else s

/-- The member loop of `complete_relation`. -/
def mpLoop (rtags : List Tag) (get : Int → Option Way) :
    List Member → MPLoopState → MPLoopState
  | [], s => s
  | m :: rest, s => mpLoop rtags get rest (mpStep rtags get m s)

/-- The observable outcome of `CheckMPManager::complete_relation`: the
without-tags early return, the final loop state, and the two output
channels (`multipolygon_relations_with_same_tags` / `_same_keys`),
which receive the relation together with the marks vector when the
corresponding flag was set and the marks are non-empty. -/
structure MPCompleteResult where
  without_tags : Bool
  state : MPLoopState
  sameTagsOut : Option (OsmRelation × List Nat)
  sameKeysOut : Option (OsmRelation × List Nat)
  deriving DecidableEq, Repr

/-- `CheckMPManager::complete_relation`. -/
def complete_relation (get : Int → Option Way) (r : OsmRelation) :
    MPCompleteResult :=
  if match_none_of_mp r.tags then
    ⟨true, ⟨[], false, false, 0, 0⟩, none, none⟩
  else
    let s := mpLoop r.tags get r.members ⟨[], false, false, 0, 0⟩
    ⟨false, s,
      if !s.marks.isEmpty && s.same_tags then some (r, s.marks) else none,
      if !s.marks.isEmpty && s.same_keys then some (r, s.marks) else none⟩

theorem mpStep_marks_mono (rtags : List Tag) (get : Int → Option Way)
    (m : Member) (s : MPLoopState) (x : Nat) (hx : x ∈ s.marks) :
    x ∈ (mpStep rtags get m s).marks := by
  unfold mpStep
  split
  · split
    · split
      · exact List.mem_append_left _ hx
      · split
        · exact List.mem_append_left _ hx
        · exact hx
    · exact hx
  · exact hx

theorem mpStep_same_tags_mono (rtags : List Tag) (get : Int → Option Way)
    (m : Member) (s : MPLoopState) (h : s.same_tags = true) :
    (mpStep rtags get m s).same_tags = true := by
  unfold mpStep
  split
  · split
    · split
      · rfl
      · split
        · exact h
        · exact h
    · exact h
  · exact h

theorem mpLoop_marks_mono (rtags : List Tag) (get : Int → Option Way)
    (members : List Member) (s : MPLoopState) (x : Nat) (hx : x ∈ s.marks) :
    x ∈ (mpLoop rtags get members s).marks := by
  induction members generalizing s with
  | nil => exact hx
  | cons m rest ih =>
      exact ih _ (mpStep_marks_mono rtags get m s x hx)

theorem mpLoop_same_tags_mono (rtags : List Tag) (get : Int → Option Way)
    (members : List Member) (s : MPLoopState) (h : s.same_tags = true) :
    (mpLoop rtags get members s).same_tags = true := by
  induction members generalizing s with
  | nil => exact h
  | cons m rest ih =>
      exact ih _ (mpStep_same_tags_mono rtags get m s h)

theorem mpLoop_hit (rtags : List Tag) (get : Int → Option Way)
    (m : Member) (w : Way) (hway : m.type = ItemType.way)
    (hget : get m.ref = some w)
    (hcmp : compare_tags rtags w.tags = true) :
    ∀ (members : List Member) (s : MPLoopState), m ∈ members →
      (mpLoop rtags get members s).same_tags = true ∧
        positiveId w.id ∈ (mpLoop rtags get members s).marks := by
  intro members
  induction members with
  | nil =>
      intro s hm
      simp at hm
  | cons m0 rest ih =>
      intro s hm
      rcases List.mem_cons.mp hm with rfl | hm
      · have hstep : (mpStep rtags get m s).same_tags = true ∧
            positiveId w.id ∈ (mpStep rtags get m s).marks := by
          simp only [mpStep, if_pos hway, hget, if_pos hcmp]
          exact ⟨trivial, List.mem_append_right _ (List.mem_singleton.mpr rfl)⟩
        exact ⟨mpLoop_same_tags_mono rtags get rest _ hstep.1,
          mpLoop_marks_mono rtags get rest _ _ hstep.2⟩
      · exact ih _ hm

/-- C8.  `same_tags` (the code's `compare_tags`) is true iff the
member's filtered tags are non-empty and exactly equal the group's
filtered tags (key and value, equal cardinality); and when it holds for
a way member of a replayed relation, that way's positive id is recorded
as a mark on the relation in the same-tags output channel. -/
theorem C8_same_tags_rule :
    (∀ rtags wtags : List Tag, compare_tags rtags wtags = true ↔
      (filteredTags wtags ≠ [] ∧ filteredTags wtags = filteredTags rtags)) ∧
    (∀ (get : Int → Option Way) (r : OsmRelation) (m : Member) (w : Way),
      m ∈ r.members → m.type = ItemType.way → get m.ref = some w →
      compare_tags r.tags w.tags = true →
      ∃ marks : List Nat,
        (complete_relation get r).sameTagsOut = some (r, marks) ∧
          positiveId w.id ∈ marks) := by
  refine ⟨compare_tags_iff, ?_⟩
  intro get r m w hm hway hget hcmp
  have hrf : filteredTags r.tags ≠ [] := by
    obtain ⟨hne, heq⟩ := (compare_tags_iff r.tags w.tags).mp hcmp
    rw [← heq]
    exact hne
  have hmatch : ¬match_none_of_mp r.tags = true := fun h =>
    absurd ((match_none_of_mp_iff r.tags).mp h) hrf
  obtain ⟨hst, hmark⟩ := mpLoop_hit r.tags get m w hway hget hcmp
    r.members ⟨[], false, false, 0, 0⟩ hm
  have hne : (mpLoop r.tags get r.members
      ⟨[], false, false, 0, 0⟩).marks.isEmpty = false := by
    rw [List.isEmpty_eq_false]
    exact List.ne_nil_of_mem hmark
  refine ⟨(mpLoop r.tags get r.members ⟨[], false, false, 0, 0⟩).marks,
    ?_, hmark⟩
  simp only [complete_relation, if_neg hmatch]
  rw [hne, hst]
  rfl

/-- Witness for C8: the spec's tag-rule scenario — group
`G(type=multipolygon, landuse=forest)` with outer member way 5 tagged
`landuse=forest` records way 5 as a mark in the same-tags channel. -/
theorem C8_same_tags_rule_witness :
    ∃ marks : List Nat,
      (complete_relation
          (fun ref =>
            if ref = (5 : Int) then
              some ⟨5, 0, [⟨"landuse", "forest"⟩], [1, 2, 1]⟩
            else if ref = (6 : Int) then
              some ⟨6, 0, [⟨"natural", "wetland"⟩], [3, 4, 3]⟩
            else none)
          ⟨7, 0, [⟨"type", "multipolygon"⟩, ⟨"landuse", "forest"⟩],
            [⟨ItemType.way, 5, "outer"⟩,
              ⟨ItemType.way, 6, "inner"⟩]⟩).sameTagsOut =
        some (⟨7, 0, [⟨"type", "multipolygon"⟩, ⟨"landuse", "forest"⟩],
          [⟨ItemType.way, 5, "outer"⟩, ⟨ItemType.way, 6, "inner"⟩]⟩,
          marks) ∧
      positiveId (5 : Int) ∈ marks :=
  C8_same_tags_rule.2
    (fun ref =>
      if ref = (5 : Int) then
        some ⟨5, 0, [⟨"landuse", "forest"⟩], [1, 2, 1]⟩
      else if ref = (6 : Int) then
        some ⟨6, 0, [⟨"natural", "wetland"⟩], [3, 4, 3]⟩
      else none)
    ⟨7, 0, [⟨"type", "multipolygon"⟩, ⟨"landuse", "forest"⟩],
      [⟨ItemType.way, 5, "outer"⟩, ⟨ItemType.way, 6, "inner"⟩]⟩
    ⟨ItemType.way, 5, "outer"⟩
    ⟨5, 0, [⟨"landuse", "forest"⟩], [1, 2, 1]⟩
    (by decide) (by decide) (by decide) (by decide)

/-- The spec's reading of `conflicting_tags`, written from the spec's
words for comparison with the code's definition: the filtered member
tags share the same key SET as the filtered group tags (same
cardinality, same keys, in any order) but differ in at least one
value. -/
def conflicting_tags_spec (rtags wtags : List Tag) : Bool :=
  let wf := filteredTags wtags
  let rf := filteredTags rtags
  (wf.length == rf.length) &&
    (wf.all fun t => (rf.map Tag.key).contains t.key) &&
    (rf.all fun t => (wf.map Tag.key).contains t.key) &&
    (wf.any fun t => getValueByKey rf t.key != some t.value)

/-- Counterexample to C7 as stated: a closed outer way whose filtered
tags carry the same key set as the group's, with a differing value,
but in a different stored order.  The spec predicate holds, yet the
code's `conflicting_tags` is false (it compares key sequences
positionally), and the replay records nothing in the same-keys
channel. -/
theorem C7_conflicting_counterexample :
    conflicting_tags_spec
        [⟨"type", "multipolygon"⟩, ⟨"a", "1"⟩, ⟨"b", "2"⟩]
        [⟨"b", "2"⟩, ⟨"a", "9"⟩] = true ∧
    conflicting_tags
        [⟨"type", "multipolygon"⟩, ⟨"a", "1"⟩, ⟨"b", "2"⟩]
        [⟨"b", "2"⟩, ⟨"a", "9"⟩] = false ∧
    (complete_relation
        (fun ref =>
          if ref = (5 : Int) then
            some ⟨5, 0, [⟨"b", "2"⟩, ⟨"a", "9"⟩], [1, 2, 1]⟩
          else none)
        ⟨1, 0, [⟨"type", "multipolygon"⟩, ⟨"a", "1"⟩, ⟨"b", "2"⟩],
          [⟨ItemType.way, 5, "outer"⟩]⟩).sameKeysOut = none := by
  decide

/-- C7 (amended).  The conflicting-tags branch fires for a way member
iff the resolved way is closed, the member's role is not "inner", and
the member's filtered tags are non-empty with the same key sequence
(same keys, same stored order, hence same cardinality) as the group's
filtered tags while not being identical to them (i.e. differing in at
least one value).  In particular a member with role "inner" is never
flagged regardless of its tags. -/
theorem C7_conflicting_amended (rtags : List Tag) (get : Int → Option Way)
    (m : Member) (w : Way) (s : MPLoopState)
    (hway : m.type = ItemType.way) (hget : get m.ref = some w) :
    (mpStep rtags get m s).cnt_conflict = s.cnt_conflict + 1 ↔
      (isClosedWay w = true ∧ m.role ≠ "inner" ∧
        filteredTags w.tags ≠ [] ∧
        (filteredTags w.tags).map Tag.key =
          (filteredTags rtags).map Tag.key ∧
        filteredTags w.tags ≠ filteredTags rtags) := by
  simp only [mpStep, if_pos hway, hget]
  by_cases hcmp : compare_tags rtags w.tags = true
  · rw [if_pos hcmp]
    obtain ⟨-, heq⟩ := (compare_tags_iff rtags w.tags).mp hcmp
    dsimp only
    constructor
    · intro h
      exact absurd h (by omega)
    · rintro ⟨-, -, -, -, hne⟩
      exact absurd heq hne
  · rw [if_neg hcmp]
    by_cases hbr : (isClosedWay w && !(m.role == "inner") &&
        conflicting_tags rtags w.tags) = true
    · rw [if_pos hbr]
      have h1 := Bool.and_eq_true_iff.mp hbr
      have h2 := Bool.and_eq_true_iff.mp h1.1
      obtain ⟨hwne, hkeys⟩ := (conflicting_tags_iff rtags w.tags).mp h1.2
      have hrole : m.role ≠ "inner" := by
        have h3 := h2.2
        rw [Bool.not_eq_true', beq_eq_false_iff_ne] at h3
        exact h3
      have hne : filteredTags w.tags ≠ filteredTags rtags := fun heq =>
        hcmp ((compare_tags_iff rtags w.tags).mpr ⟨hwne, heq⟩)
      exact Iff.intro (fun _ => ⟨h2.1, hrole, hwne, hkeys, hne⟩)
        (fun _ => rfl)
    · rw [if_neg hbr]
      constructor
      · intro h
        exact absurd h (by omega)
      · rintro ⟨hclosed, hrole, hwne, hkeys, -⟩
        refine absurd ?_ hbr
        rw [Bool.and_eq_true, Bool.and_eq_true]
        refine ⟨⟨hclosed, ?_⟩,
          (conflicting_tags_iff rtags w.tags).mpr ⟨hwne, hkeys⟩⟩
        rw [Bool.not_eq_true', beq_eq_false_iff_ne]
        exact hrole

/-- Witness for the amended C7: a closed outer way member with equal
key sequence and a differing value. -/
theorem C7_conflicting_amended_witness :
    (mpStep [⟨"type", "multipolygon"⟩, ⟨"a", "1"⟩]
        (fun ref =>
          if ref = (5 : Int) then some ⟨5, 0, [⟨"a", "9"⟩], [1, 2, 1]⟩
          else none)
        ⟨ItemType.way, 5, "outer"⟩
        ⟨[], false, false, 0, 0⟩).cnt_conflict =
      (⟨[], false, false, 0, 0⟩ : MPLoopState).cnt_conflict + 1 ↔
      (isClosedWay ⟨5, 0, [⟨"a", "9"⟩], [1, 2, 1]⟩ = true ∧
        (⟨ItemType.way, 5, "outer"⟩ : Member).role ≠ "inner" ∧
        filteredTags [⟨"a", "9"⟩] ≠ [] ∧
        (filteredTags [⟨"a", "9"⟩]).map Tag.key =
          (filteredTags [⟨"type", "multipolygon"⟩, ⟨"a", "1"⟩]).map Tag.key ∧
        filteredTags [⟨"a", "9"⟩] ≠
          filteredTags [⟨"type", "multipolygon"⟩, ⟨"a", "1"⟩]) :=
  C7_conflicting_amended [⟨"type", "multipolygon"⟩, ⟨"a", "1"⟩]
    (fun ref =>
      if ref = (5 : Int) then some ⟨5, 0, [⟨"a", "9"⟩], [1, 2, 1]⟩
      else none)
    ⟨ItemType.way, 5, "outer"⟩ ⟨5, 0, [⟨"a", "9"⟩], [1, 2, 1]⟩
    ⟨[], false, false, 0, 0⟩ (by decide) (by decide)

/-! ## Relation checks (odad-find-relation-problems.cpp)

`CheckHandler::multipolygon_relation` walks the member list once,
advancing the per-member statistics counters, and writes the relation
to each output file at most once — a channel's write is guarded by a
comparison of the counter before and after the loop (or by a single
boolean check).  `find_duplicate_ways` sorts the way-member ids and
looks for an adjacent equal pair. -/

/-- Sort a list of signed ids (`std::sort`). -/
def sortInts (l : List Int) : List Int :=
  l.insertionSort (· ≤ ·)

/-- `std::adjacent_find(...) != end`: some adjacent pair is equal. -/
def hasAdjacentDup : List Int → Bool
  | [] => false
  | [_] => false
  | a :: b :: rest => a == b || hasAdjacentDup (b :: rest)

/-- The signed ids of the way members of a relation, in member
order. -/
def wayMemberIds (r : OsmRelation) : List Int :=
  (r.members.filter fun m => m.type == ItemType.way).map fun m => m.ref

/-- `CheckHandler::find_duplicate_ways`: collect the way-member ids,
sort them, and report whether an adjacent equal pair exists. -/
def find_duplicate_ways (r : OsmRelation) : Bool :=
  hasAdjacentDup (sortInts (wayMemberIds r))

/-- The four per-member statistics counters advanced by the member
loop of `multipolygon_relation`. -/
structure RelStats where
  node_member : Nat
  relation_member : Nat
  unknown_role : Nat
  empty_role : Nat
  deriving DecidableEq, Repr

/-- One iteration of the member loop: count node members, relation
members, and way members with an empty or unknown role. -/
def relStatsStep (s : RelStats) (m : Member) : RelStats :=
  match m.type with
  | ItemType.node => { s with node_member := s.node_member + 1 }
  | ItemType.way =>
      if m.role = "" then { s with empty_role := s.empty_role + 1 }
      else if m.role ≠ "inner" ∧ m.role ≠ "outer" then
        { s with unknown_role := s.unknown_role + 1 }
      else s
  | ItemType.rel => { s with relation_member := s.relation_member + 1 }

/-- The member loop of `multipolygon_relation`. -/
def scanMembers (members : List Member) (s : RelStats) : RelStats :=
  members.foldl relStatsStep s

/-- The observable outcome of `CheckHandler::multipolygon_relation`:
the final statistics and, per output channel, the list of writes of
this relation performed for it. -/
structure MPRelResult where
  stats : RelStats
  non_way_writes : List OsmRelation
  unknown_role_writes : List OsmRelation
  empty_role_writes : List OsmRelation
  single_way_writes : List OsmRelation
  duplicate_way_writes : List OsmRelation
  old_style_writes : List OsmRelation
  area_writes : List OsmRelation
  boundary_admin_writes : List OsmRelation
  deriving DecidableEq, Repr

/-- Does the relation have exactly one member, of kind way
(`members().size() == 1 && members().cbegin()->type() == way`)? -/
def singleWayMember (r : OsmRelation) : Bool :=
  match r.members with
  | [m] => m.type == ItemType.way
  | _ => false

/-- `CheckHandler::multipolygon_relation`, given the statistics
accumulated before this relation.  Channel writes happen after the
member loop, guarded by before/after counter comparison; the old-style
check (`tags().size() == 1 ||` no tag passes the filter) returns early,
skipping the area and boundary=administrative tag checks. -/
def multipolygon_relation (r : OsmRelation) (s0 : RelStats) : MPRelResult :=
  let s1 := scanMembers r.members s0
  let oldStyle := (r.tags.length == 1) ||
    (r.tags.all fun t => !mpFilterMatch t)
  { stats := s1
    non_way_writes :=
      if s0.node_member + s0.relation_member ≠
          s1.node_member + s1.relation_member then [r] else []
    unknown_role_writes :=
      if s0.unknown_role ≠ s1.unknown_role then [r] else []
    empty_role_writes :=
      if s0.empty_role ≠ s1.empty_role then [r] else []
    single_way_writes := if singleWayMember r then [r] else []
    duplicate_way_writes := if find_duplicate_ways r then [r] else []
    old_style_writes := if oldStyle then [r] else []
    area_writes :=
      if oldStyle then []
      else if (getValueByKey r.tags "area").isSome then [r] else []
    boundary_admin_writes :=
      if oldStyle then []
      else if getValueByKey r.tags "boundary" == some "administrative" then
        [r]
      else [] }

theorem relStatsStep_node_member (s : RelStats) (m : Member) :
    (relStatsStep s m).node_member =
      s.node_member + (if m.type = ItemType.node then 1 else 0) := by
  unfold relStatsStep
  rcases htype : m.type with _ | _ | _
  · simp
  · dsimp only
    split
    · simp
    · split <;> simp
  · simp

theorem relStatsStep_relation_member (s : RelStats) (m : Member) :
    (relStatsStep s m).relation_member =
      s.relation_member + (if m.type = ItemType.rel then 1 else 0) := by
  unfold relStatsStep
  rcases htype : m.type with _ | _ | _
  · simp
  · dsimp only
    split
    · simp
    · split <;> simp
  · simp

theorem relStatsStep_empty_role (s : RelStats) (m : Member) :
    (relStatsStep s m).empty_role =
      s.empty_role +
        (if m.type = ItemType.way ∧ m.role = "" then 1 else 0) := by
  unfold relStatsStep
  rcases htype : m.type with _ | _ | _
  · simp
  · dsimp only
    split
    · rename_i h
      simp [h]
    · rename_i h
      split <;> simp [h]
  · simp

theorem relStatsStep_unknown_role (s : RelStats) (m : Member) :
    (relStatsStep s m).unknown_role =
      s.unknown_role +
        (if m.type = ItemType.way ∧ m.role ≠ "" ∧ m.role ≠ "inner" ∧
          m.role ≠ "outer" then 1 else 0) := by
  unfold relStatsStep
  rcases htype : m.type with _ | _ | _
  · simp
  · dsimp only
    split
    · rename_i h
      simp [h]
    · rename_i h
      split
      · rename_i h2
        simp [h, h2.1, h2.2]
      · rename_i h2
        rw [if_neg fun hc => h2 ⟨hc.2.2.1, hc.2.2.2⟩]
        simp
  · simp

theorem scanMembers_node_member (members : List Member) (s : RelStats) :
    (scanMembers members s).node_member =
      s.node_member +
        (members.countP fun m => m.type == ItemType.node) := by
  induction members generalizing s with
  | nil => simp [scanMembers]
  | cons m rest ih =>
      rw [scanMembers, List.foldl_cons,
        show List.foldl relStatsStep (relStatsStep s m) rest =
          scanMembers rest (relStatsStep s m) from rfl,
        ih, relStatsStep_node_member, List.countP_cons]
      by_cases h : m.type = ItemType.node <;> simp [h] <;> omega

theorem scanMembers_relation_member (members : List Member) (s : RelStats) :
    (scanMembers members s).relation_member =
      s.relation_member +
        (members.countP fun m => m.type == ItemType.rel) := by
  induction members generalizing s with
  | nil => simp [scanMembers]
  | cons m rest ih =>
      rw [scanMembers, List.foldl_cons,
        show List.foldl relStatsStep (relStatsStep s m) rest =
          scanMembers rest (relStatsStep s m) from rfl,
        ih, relStatsStep_relation_member, List.countP_cons]
      by_cases h : m.type = ItemType.rel <;> simp [h] <;> omega

theorem scanMembers_empty_role (members : List Member) (s : RelStats) :
    (scanMembers members s).empty_role =
      s.empty_role + (members.countP fun m =>
        m.type == ItemType.way && m.role == "") := by
  induction members generalizing s with
  | nil => simp [scanMembers]
  | cons m rest ih =>
      rw [scanMembers, List.foldl_cons,
        show List.foldl relStatsStep (relStatsStep s m) rest =
          scanMembers rest (relStatsStep s m) from rfl,
        ih, relStatsStep_empty_role, List.countP_cons]
      by_cases h1 : m.type = ItemType.way <;> by_cases h2 : m.role = "" <;>
        simp [h1, h2] <;> omega

theorem scanMembers_unknown_role (members : List Member) (s : RelStats) :
    (scanMembers members s).unknown_role =
      s.unknown_role + (members.countP fun m =>
        m.type == ItemType.way && !(m.role == "") &&
          !(m.role == "inner") && !(m.role == "outer")) := by
  induction members generalizing s with
  | nil => simp [scanMembers]
  | cons m rest ih =>
      rw [scanMembers, List.foldl_cons,
        show List.foldl relStatsStep (relStatsStep s m) rest =
          scanMembers rest (relStatsStep s m) from rfl,
        ih, relStatsStep_unknown_role, List.countP_cons]
      by_cases h1 : m.type = ItemType.way <;> by_cases h2 : m.role = "" <;>
        by_cases h3 : m.role = "inner" <;> by_cases h4 : m.role = "outer" <;>
          simp [h1, h2, h3, h4] <;> omega

theorem hasAdjacentDup_iff_not_nodup :
    ∀ {l : List Int}, l.Sorted (· ≤ ·) →
      (hasAdjacentDup l = true ↔ ¬l.Nodup) := by
  intro l
  induction l using hasAdjacentDup.induct with
  | case1 =>
      intro _
      simp [hasAdjacentDup]
  | case2 a =>
      intro _
      simp [hasAdjacentDup]
  | case3 a b rest ih =>
      intro hs
      rw [hasAdjacentDup]
      have hs1 := (List.sorted_cons.mp hs).1
      have hs2 := (List.sorted_cons.mp hs).2
      rcases eq_or_ne a b with rfl | hne
      · simp [List.nodup_cons]
      · have hanotin : a ∉ b :: rest := by
          intro hmem
          rcases List.mem_cons.mp hmem with h | h
          · exact hne h
          · exact hne (le_antisymm (hs1 _ (List.mem_cons_self _ _))
              ((List.sorted_cons.mp hs2).1 _ h))
        rw [Bool.or_eq_true, beq_eq_false_iff_ne.mpr hne]
        simp only [Bool.false_eq_true, false_or]
        rw [ih hs2]
        constructor
        · intro h hnodup
          exact h (List.nodup_cons.mp hnodup).2
        · intro h hnodup
          exact h (List.nodup_cons.mpr ⟨hanotin, hnodup⟩)

theorem find_duplicate_ways_iff (r : OsmRelation) :
    find_duplicate_ways r = true ↔
      ∃ id : Int, 2 ≤ (wayMemberIds r).count id := by
  unfold find_duplicate_ways
  have hperm : (sortInts (wayMemberIds r)).Perm (wayMemberIds r) :=
    List.perm_insertionSort _ _
  have hsorted : (sortInts (wayMemberIds r)).Sorted (· ≤ ·) :=
    List.sorted_insertionSort _ _
  rw [hasAdjacentDup_iff_not_nodup hsorted, hperm.nodup_iff,
    List.nodup_iff_count_le_one]
  constructor
  · intro h
    push_neg at h
    obtain ⟨a, ha⟩ := h
    exact ⟨a, by omega⟩
  · rintro ⟨id, hid⟩ h
    have := h id
    omega

/-- C5.  `find_duplicate_ways` sorts the way-member ids of a relation
and reports a duplicate iff some id occurs at least twice; on a group
with way members [5, 7, 5] the group is written to the duplicate-way
channel exactly once, not twice. -/
theorem C5_duplicate_ways :
    (∀ r : OsmRelation, find_duplicate_ways r = true ↔
      ∃ id : Int, 2 ≤ (wayMemberIds r).count id) ∧
    (multipolygon_relation
        ⟨1, 0, [⟨"type", "multipolygon"⟩, ⟨"landuse", "forest"⟩],
          [⟨ItemType.way, 5, "outer"⟩, ⟨ItemType.way, 7, "outer"⟩,
            ⟨ItemType.way, 5, "outer"⟩]⟩
        ⟨0, 0, 0, 0⟩).duplicate_way_writes.length = 1 :=
  ⟨find_duplicate_ways_iff, by decide⟩

/-- C6.  For a group whose filtered tags are empty, the relation check
flags it old-style (legacy) and skips the area-tag and
boundary=administrative checks, and the multipolygon replay counts it
as without-tags and evaluates none of the member tag-comparison rules:
the loop state stays initial and both the same-tags and same-keys
channels stay empty. -/
theorem C6_legacy_style (get : Int → Option Way) (r : OsmRelation)
    (s0 : RelStats) (hfe : filteredTags r.tags = []) :
    (multipolygon_relation r s0).old_style_writes = [r] ∧
    (multipolygon_relation r s0).area_writes = [] ∧
    (multipolygon_relation r s0).boundary_admin_writes = [] ∧
    (complete_relation get r).without_tags = true ∧
    (complete_relation get r).sameTagsOut = none ∧
    (complete_relation get r).sameKeysOut = none ∧
    (complete_relation get r).state = ⟨[], false, false, 0, 0⟩ := by
  have hmn : match_none_of_mp r.tags = true :=
    (match_none_of_mp_iff r.tags).mpr hfe
  have hall : (r.tags.all fun t => !mpFilterMatch t) = true := hmn
  have holdstyle : ((r.tags.length == 1) ||
      (r.tags.all fun t => !mpFilterMatch t)) = true := by
    rw [hall, Bool.or_true]
  refine ⟨?_, ?_, ?_, ?_, ?_, ?_, ?_⟩ <;>
    simp [multipolygon_relation, complete_relation, hmn, holdstyle]

/-- Witness for C6: the spec's legacy-style group, carrying only its
category tag. -/
theorem C6_legacy_style_witness :
    (multipolygon_relation ⟨1, 0, [⟨"type", "multipolygon"⟩], []⟩
        ⟨0, 0, 0, 0⟩).old_style_writes =
      [⟨1, 0, [⟨"type", "multipolygon"⟩], []⟩] ∧
    (multipolygon_relation ⟨1, 0, [⟨"type", "multipolygon"⟩], []⟩
        ⟨0, 0, 0, 0⟩).area_writes = [] ∧
    (multipolygon_relation ⟨1, 0, [⟨"type", "multipolygon"⟩], []⟩
        ⟨0, 0, 0, 0⟩).boundary_admin_writes = [] ∧
    (complete_relation (fun _ => none)
        ⟨1, 0, [⟨"type", "multipolygon"⟩], []⟩).without_tags = true ∧
    (complete_relation (fun _ => none)
        ⟨1, 0, [⟨"type", "multipolygon"⟩], []⟩).sameTagsOut = none ∧
    (complete_relation (fun _ => none)
        ⟨1, 0, [⟨"type", "multipolygon"⟩], []⟩).sameKeysOut = none ∧
    (complete_relation (fun _ => none)
        ⟨1, 0, [⟨"type", "multipolygon"⟩], []⟩).state =
      ⟨[], false, false, 0, 0⟩ :=
  C6_legacy_style (fun _ => none) ⟨1, 0, [⟨"type", "multipolygon"⟩], []⟩
    ⟨0, 0, 0, 0⟩ (by decide)

theorem colocatedWayWrites_le_one (nodeIds : List Nat) (refs : List Int) :
    colocatedWayWrites nodeIds refs ≤ 1 := by
  induction refs with
  | nil => simp [colocatedWayWrites]
  | cons r rest ih =>
      rw [colocatedWayWrites]
      split
      · exact le_refl 1
      · exact ih

theorem ite_singleton_length_le (c : Prop) [Decidable c] (r : OsmRelation) :
    (if c then [r] else []).length ≤ 1 := by
  split <;> simp

/-- C10.  One pass writes a flagged entity to a channel at most once
even when several members offend: the non-way-member, unknown-role and
empty-role channels receive at most one copy of the relation while the
per-member counters advance by the number of offending members, and
the colocated way pass (`break` after the first hit) writes a way at
most once however many of its node references are colocated.  The
concrete conjuncts evaluate a relation with two empty-role way members
(one write, counter +2) and a way with two colocated references (one
write). -/
theorem C10_write_once (r : OsmRelation) (s0 : RelStats) :
    (multipolygon_relation r s0).non_way_writes.length ≤ 1 ∧
    (multipolygon_relation r s0).unknown_role_writes.length ≤ 1 ∧
    (multipolygon_relation r s0).empty_role_writes.length ≤ 1 ∧
    (multipolygon_relation r s0).stats.node_member =
      s0.node_member +
        (r.members.countP fun m => m.type == ItemType.node) ∧
    (multipolygon_relation r s0).stats.relation_member =
      s0.relation_member +
        (r.members.countP fun m => m.type == ItemType.rel) ∧
    (multipolygon_relation r s0).stats.empty_role =
      s0.empty_role + (r.members.countP fun m =>
        m.type == ItemType.way && m.role == "") ∧
    (multipolygon_relation r s0).stats.unknown_role =
      s0.unknown_role + (r.members.countP fun m =>
        m.type == ItemType.way && !(m.role == "") &&
          !(m.role == "inner") && !(m.role == "outer")) ∧
    (∀ (nodeIds : List Nat) (refs : List Int),
      colocatedWayWrites nodeIds refs ≤ 1) ∧
    colocatedWayWrites [1, 2] [1, 2] = 1 ∧
    (multipolygon_relation
        ⟨1, 0, [⟨"type", "multipolygon"⟩],
          [⟨ItemType.way, 5, ""⟩, ⟨ItemType.way, 7, ""⟩]⟩
        ⟨0, 0, 0, 0⟩).empty_role_writes.length = 1 ∧
    (multipolygon_relation
        ⟨1, 0, [⟨"type", "multipolygon"⟩],
          [⟨ItemType.way, 5, ""⟩, ⟨ItemType.way, 7, ""⟩]⟩
        ⟨0, 0, 0, 0⟩).stats.empty_role = 2 :=
  ⟨ite_singleton_length_le _ r, ite_singleton_length_le _ r,
    ite_singleton_length_le _ r,
    scanMembers_node_member r.members s0,
    scanMembers_relation_member r.members s0,
    scanMembers_empty_role r.members s0,
    scanMembers_unknown_role r.members s0,
    colocatedWayWrites_le_one, by decide, by decide, by decide⟩

/-! ## Orphan option parsing (parse_command_line in
odad-find-orphans.cpp)

Each fatal configuration error prints a message and calls
`std::exit(2)` before any input file is opened; `main` only reaches the
two passes after `parse_command_line` returns. -/

/-- The command-line options of the orphan tool that reach the option
loop (`--help` exits immediately and is omitted).  `age` and `before`
both carry the resulting cutoff timestamp. -/
inductive OrphanOpt where
  | age (t : Nat)
  | before (t : Nat)
  | quiet
  | untaggedOnly
  | noUntagged
  deriving DecidableEq, Repr

/-- The full option record of the orphan tool. -/
structure OrphanCliOptions where
  before_time : Option Nat
  verbose : Bool
  untagged : Bool
  tagged : Bool
  deriving DecidableEq, Repr

/-- Defaults of `options_type`. -/
def orphanDefaults : OrphanCliOptions := ⟨none, true, true, true⟩

/-- The `getopt_long` loop: `-a`/`-b` set the cutoff (erroring with
exit status 2 when a cutoff was already given), `-q` clears verbose,
`-u` clears `tagged`, `-U` clears `untagged`. -/
def processOrphanOpts : List OrphanOpt → OrphanCliOptions →
    Except (String × Nat) OrphanCliOptions
  | [], o => Except.ok o
  | opt :: rest, o =>
      match opt with
      | .age t =>
          if o.before_time ≠ none then
            Except.error
              ("You can not use both -a,--age and -b,--before together", 2)
          else processOrphanOpts rest { o with before_time := some t }
      | .before t =>
          if o.before_time ≠ none then
            Except.error
              ("You can not use both -a,--age and -b,--before together", 2)
          else processOrphanOpts rest { o with before_time := some t }
      | .quiet => processOrphanOpts rest { o with verbose := false }
      | .untaggedOnly => processOrphanOpts rest { o with tagged := false }
      | .noUntagged => processOrphanOpts rest { o with untagged := false }

/-- `parse_command_line`: run the option loop, then reject the
configuration in which both reporting modes have been switched off,
with exit status 2. -/
def parse_command_line (opts : List OrphanOpt) :
    Except (String × Nat) OrphanCliOptions :=
  match processOrphanOpts opts orphanDefaults with
  | Except.error e => Except.error e
  | Except.ok o =>
      if !o.tagged && !o.untagged then
        Except.error
          ("Can not use -u,--untagged-only and -U,--no-untagged together.", 2)
      else Except.ok o

/-- The orphan tool's `main` up to its output: parse the command line
first; only on success are the two passes over the input run and the
orphan list produced. -/
def orphanMain (opts : List OrphanOpt) (objs : List OSMObject) :
    Except (String × Nat) (List OSMObject) :=
  match parse_command_line opts with
  | Except.error e => Except.error e
  | Except.ok o =>
      Except.ok (objs.filter fun obj =>
        orphanEmitted ⟨o.before_time, o.untagged, o.tagged⟩ objs obj)

theorem processOrphanOpts_error_code :
    ∀ (opts : List OrphanOpt) (o : OrphanCliOptions) (e : String × Nat),
      processOrphanOpts opts o = Except.error e → e.2 = 2 := by
  intro opts
  induction opts with
  | nil =>
      intro o e h
      simp [processOrphanOpts] at h
  | cons opt rest ih =>
      intro o e h
      cases opt <;> simp only [processOrphanOpts] at h
      · split at h
        · cases h
          rfl
        · exact ih _ _ h
      · split at h
        · cases h
          rfl
        · exact ih _ _ h
      · exact ih _ _ h
      · exact ih _ _ h
      · exact ih _ _ h

theorem processOrphanOpts_flags :
    ∀ (opts : List OrphanOpt) (o o' : OrphanCliOptions),
      processOrphanOpts opts o = Except.ok o' →
      ((OrphanOpt.untaggedOnly ∈ opts ∨ o.tagged = false) →
        o'.tagged = false) ∧
      ((OrphanOpt.noUntagged ∈ opts ∨ o.untagged = false) →
        o'.untagged = false) := by
  intro opts
  induction opts with
  | nil =>
      intro o o' h
      simp only [processOrphanOpts] at h
      cases h
      constructor
      · rintro (h | h)
        · simp at h
        · exact h
      · rintro (h | h)
        · simp at h
        · exact h
  | cons opt rest ih =>
      intro o o' h
      cases opt <;> simp only [processOrphanOpts] at h
      case age t =>
        split at h
        · cases h
        · obtain ⟨h1, h2⟩ := ih _ _ h
          refine ⟨?_, ?_⟩
          · rintro (hmem | hflag)
            · rcases List.mem_cons.mp hmem with heq | hmem
              · cases heq
              · exact h1 (Or.inl hmem)
            · exact h1 (Or.inr hflag)
          · rintro (hmem | hflag)
            · rcases List.mem_cons.mp hmem with heq | hmem
              · cases heq
              · exact h2 (Or.inl hmem)
            · exact h2 (Or.inr hflag)
      case before t =>
        split at h
        · cases h
        · obtain ⟨h1, h2⟩ := ih _ _ h
          refine ⟨?_, ?_⟩
          · rintro (hmem | hflag)
            · rcases List.mem_cons.mp hmem with heq | hmem
              · cases heq
              · exact h1 (Or.inl hmem)
            · exact h1 (Or.inr hflag)
          · rintro (hmem | hflag)
            · rcases List.mem_cons.mp hmem with heq | hmem
              · cases heq
              · exact h2 (Or.inl hmem)
            · exact h2 (Or.inr hflag)
      case quiet =>
        obtain ⟨h1, h2⟩ := ih _ _ h
        refine ⟨?_, ?_⟩
        · rintro (hmem | hflag)
          · rcases List.mem_cons.mp hmem with heq | hmem
            · cases heq
            · exact h1 (Or.inl hmem)
          · exact h1 (Or.inr hflag)
        · rintro (hmem | hflag)
          · rcases List.mem_cons.mp hmem with heq | hmem
            · cases heq
            · exact h2 (Or.inl hmem)
          · exact h2 (Or.inr hflag)
      case untaggedOnly =>
        obtain ⟨h1, h2⟩ := ih _ _ h
        refine ⟨fun _ => h1 (Or.inr rfl), ?_⟩
        · rintro (hmem | hflag)
          · rcases List.mem_cons.mp hmem with heq | hmem
            · cases heq
            · exact h2 (Or.inl hmem)
          · exact h2 (Or.inr hflag)
      case noUntagged =>
        obtain ⟨h1, h2⟩ := ih _ _ h
        refine ⟨?_, fun _ => h2 (Or.inr rfl)⟩
        · rintro (hmem | hflag)
          · rcases List.mem_cons.mp hmem with heq | hmem
            · cases heq
            · exact h1 (Or.inl hmem)
          · exact h1 (Or.inr hflag)

/-- C9.  If both `-u,--untagged-only` and `-U,--no-untagged` are given
— i.e. neither untagged-candidate nor minimally-tagged-candidate
reporting remains selected — the run is a configuration error: parsing
returns a descriptive message with exit status 2 (non-zero), and the
tool's main yields that error for every input, before reading any of
it or producing any output. -/
theorem C9_neither_mode_error (opts : List OrphanOpt)
    (hu : OrphanOpt.untaggedOnly ∈ opts)
    (hU : OrphanOpt.noUntagged ∈ opts) :
    ∃ msg : String,
      parse_command_line opts = Except.error (msg, 2) ∧ (2 : Nat) ≠ 0 ∧
        ∀ objs : List OSMObject,
          orphanMain opts objs = Except.error (msg, 2) := by
  cases h : processOrphanOpts opts orphanDefaults with
  | error e =>
      have hcode := processOrphanOpts_error_code opts orphanDefaults e h
      refine ⟨e.1, ?_, by decide, fun objs => ?_⟩
      · unfold parse_command_line
        rw [h]
        cases e
        simp only at hcode
        rw [hcode]
      · unfold orphanMain parse_command_line
        rw [h]
        cases e
        simp only at hcode
        rw [hcode]
  | ok o =>
      obtain ⟨ht, hun⟩ := processOrphanOpts_flags opts orphanDefaults o h
      have ht' := ht (Or.inl hu)
      have hu' := hun (Or.inl hU)
      refine
        ⟨"Can not use -u,--untagged-only and -U,--no-untagged together.",
          ?_, by decide, fun objs => ?_⟩
      · unfold parse_command_line
        rw [h]
        simp [ht', hu']
      · unfold orphanMain parse_command_line
        rw [h]
        simp [ht', hu']

/-- Witness for C9: both mode-disabling options on the command
line. -/
theorem C9_neither_mode_error_witness :
    ∃ msg : String,
      parse_command_line [OrphanOpt.untaggedOnly, OrphanOpt.noUntagged] =
          Except.error (msg, 2) ∧ (2 : Nat) ≠ 0 ∧
        ∀ objs : List OSMObject,
          orphanMain [OrphanOpt.untaggedOnly, OrphanOpt.noUntagged] objs =
            Except.error (msg, 2) :=
  C9_neither_mode_error [OrphanOpt.untaggedOnly, OrphanOpt.noUntagged]
    (by decide) (by decide)

/-- Witness for C2: the scenario objects evaluated — unreferenced
untagged Point 3 is flagged. -/
theorem C2_orphan_emitted_witness :
    orphanEmitted ⟨none, true, true⟩
        [.node ⟨1, 0, [], ⟨0, 0⟩⟩, .node ⟨2, 0, [], ⟨1, 1⟩⟩,
          .node ⟨3, 0, [], ⟨2, 2⟩⟩, .way ⟨100, 0, [], [1, 2]⟩,
          .rel ⟨200, 0, [], [⟨ItemType.way, 100, ""⟩]⟩]
        (.node ⟨3, 0, [], ⟨2, 2⟩⟩) = true :=
  (C2_orphan_emitted ⟨none, true, true⟩
    [.node ⟨1, 0, [], ⟨0, 0⟩⟩, .node ⟨2, 0, [], ⟨1, 1⟩⟩,
      .node ⟨3, 0, [], ⟨2, 2⟩⟩, .way ⟨100, 0, [], [1, 2]⟩,
      .rel ⟨200, 0, [], [⟨ItemType.way, 100, ""⟩]⟩]).2.1

/-- Witness for C3: the concrete dedup scenario — exactly P1 and P2
are emitted. -/
theorem C3_second_pass_witness :
    ([(⟨1, 0, [], ⟨10, 20⟩⟩ : Node), ⟨2, 0, [], ⟨10, 20⟩⟩,
        ⟨3, 0, [], ⟨30, 40⟩⟩].filter fun n =>
        colocatedNodeEmitted
          (resolveColocated none
            [⟨1, 0, [], ⟨10, 20⟩⟩, ⟨2, 0, [], ⟨10, 20⟩⟩,
              ⟨3, 0, [], ⟨30, 40⟩⟩]) n) =
      [⟨1, 0, [], ⟨10, 20⟩⟩, ⟨2, 0, [], ⟨10, 20⟩⟩] :=
  (C3_second_pass none []).2.2.2

/-- Witness for C5: the [5, 7, 5] group is flagged exactly once. -/
theorem C5_duplicate_ways_witness :
    (multipolygon_relation
        ⟨1, 0, [⟨"type", "multipolygon"⟩, ⟨"landuse", "forest"⟩],
          [⟨ItemType.way, 5, "outer"⟩, ⟨ItemType.way, 7, "outer"⟩,
            ⟨ItemType.way, 5, "outer"⟩]⟩
        ⟨0, 0, 0, 0⟩).duplicate_way_writes.length = 1 :=
  C5_duplicate_ways.2

/-- Witness for C10: evaluated at a concrete relation. -/
theorem C10_write_once_witness :
    (multipolygon_relation
        ⟨1, 0, [⟨"type", "multipolygon"⟩],
          [⟨ItemType.way, 5, ""⟩, ⟨ItemType.way, 7, ""⟩]⟩
        ⟨0, 0, 0, 0⟩).empty_role_writes.length ≤ 1 :=
  (C10_write_once
    ⟨1, 0, [⟨"type", "multipolygon"⟩],
      [⟨ItemType.way, 5, ""⟩, ⟨ItemType.way, 7, ""⟩]⟩
    ⟨0, 0, 0, 0⟩).2.2.1
